import Mathlib

/-!
Verification of the norns contract-interaction pipeline.

Shallow embedding of the ABI call-encoding / response-decoding pipeline of the
`norns` web-component library (files `src/components/contract-call.js` and
`src/components/connect-wallet.js`, plus the bundled js-sha3-derived Keccak-256
implementation).

Conventions of the embedding:
* JS strings are `String` / `List Char`; JS 32-bit integer words are `Nat`
  with explicit `% 2^32` where JS `<<` would truncate; `|`, `&`, `^`, `>>>`
  become `|||`, `&&&`, `^^^`, `>>>` on `Nat` (all operands stay below `2^32`,
  where JS bitwise semantics agree with the unsigned reading).
* JS `undefined`/`null` array reads that are immediately coerced to `0` by
  `|=` / `^=` are modelled by initializing arrays with zeros and reading with
  `List.getD _ 0`.
* Fallible JS code (a `throw` reaching the caller) is modelled with
  `Option` / `Except`.
-/

set_option maxRecDepth 4096

/-! ## Keccak-256 primitive

Embedding of the js-sha3 (v0.9.3) Keccak implementation bundled at the bottom
of `contract-call.js` (and duplicated, trimmed to Keccak-256 only, in the
standalone component bundle of the repository).  The implementation represents the
25 64-bit lanes as 50 32-bit words (`s[2*k]` = low half, `s[2*k+1]` = high
half of lane `k`).
-/

/-- The array `KECCAK_PADDING = [1, 256, 65536, 16777216]` from the source. -/
def KECCAK_PADDING : List Nat := [1, 256, 65536, 16777216]

/-- The array `SHIFT = [0, 8, 16, 24]` from the source. -/
def SHIFT : List Nat := [0, 8, 16, 24]

/-- The 48 32-bit round-constant halves `RC` from the source
(low half, high half for each of the 24 rounds). -/
def RC : List Nat := [
  1, 0, 32898, 0, 32906, 2147483648, 2147516416, 2147483648, 32907, 0,
  2147483649, 0, 2147516545, 2147483648, 32777, 2147483648, 138, 0, 136, 0,
  2147516425, 0, 2147483658, 0, 2147516555, 0, 139, 2147483648, 32905,
  2147483648, 32771, 2147483648, 32770, 2147483648, 128, 2147483648, 32778, 0,
  2147483658, 2147483648, 2147516545, 2147483648, 32896, 2147483648,
  2147483649, 0, 2147516424, 2147483648]

/-- JS 32-bit left shift: `(x << k)` truncated to 32 bits. -/
def shl32 (x k : Nat) : Nat := (x <<< k) % 4294967296

/-- JS `~x` on a 32-bit word. -/
def bnot32 (x : Nat) : Nat := x ^^^ 4294967295

/-- One round of the Keccak-f[1600] permutation exactly as in the body of the source function `f` (the loop `for (n = 0; n < 48; n += 2)`), acting on the
50-word split-lane state. `n` is the round-constant index (0, 2, 4, ...). -/
def keccakRound (s : List Nat) (n : Nat) : List Nat :=
  let g := fun i => s.getD i 0
  let c0 := g 0 ^^^ g 10 ^^^ g 20 ^^^ g 30 ^^^ g 40
  let c1 := g 1 ^^^ g 11 ^^^ g 21 ^^^ g 31 ^^^ g 41
  let c2 := g 2 ^^^ g 12 ^^^ g 22 ^^^ g 32 ^^^ g 42
  let c3 := g 3 ^^^ g 13 ^^^ g 23 ^^^ g 33 ^^^ g 43
  let c4 := g 4 ^^^ g 14 ^^^ g 24 ^^^ g 34 ^^^ g 44
  let c5 := g 5 ^^^ g 15 ^^^ g 25 ^^^ g 35 ^^^ g 45
  let c6 := g 6 ^^^ g 16 ^^^ g 26 ^^^ g 36 ^^^ g 46
  let c7 := g 7 ^^^ g 17 ^^^ g 27 ^^^ g 37 ^^^ g 47
  let c8 := g 8 ^^^ g 18 ^^^ g 28 ^^^ g 38 ^^^ g 48
  let c9 := g 9 ^^^ g 19 ^^^ g 29 ^^^ g 39 ^^^ g 49
  let h0 := c8 ^^^ (shl32 c2 1 ||| c3 >>> 31)
  let l0 := c9 ^^^ (shl32 c3 1 ||| c2 >>> 31)
  let h1 := c0 ^^^ (shl32 c4 1 ||| c5 >>> 31)
  let l1 := c1 ^^^ (shl32 c5 1 ||| c4 >>> 31)
  let h2 := c2 ^^^ (shl32 c6 1 ||| c7 >>> 31)
  let l2 := c3 ^^^ (shl32 c7 1 ||| c6 >>> 31)
  let h3 := c4 ^^^ (shl32 c8 1 ||| c9 >>> 31)
  let l3 := c5 ^^^ (shl32 c9 1 ||| c8 >>> 31)
  let h4 := c6 ^^^ (shl32 c0 1 ||| c1 >>> 31)
  let l4 := c7 ^^^ (shl32 c1 1 ||| c0 >>> 31)
  -- theta: s[10a+2b] ^= h_b, s[10a+2b+1] ^= l_b
  let t0 := g 0 ^^^ h0
  let t1 := g 1 ^^^ l0
  let t2 := g 2 ^^^ h1
  let t3 := g 3 ^^^ l1
  let t4 := g 4 ^^^ h2
  let t5 := g 5 ^^^ l2
  let t6 := g 6 ^^^ h3
  let t7 := g 7 ^^^ l3
  let t8 := g 8 ^^^ h4
  let t9 := g 9 ^^^ l4
  let t10 := g 10 ^^^ h0
  let t11 := g 11 ^^^ l0
  let t12 := g 12 ^^^ h1
  let t13 := g 13 ^^^ l1
  let t14 := g 14 ^^^ h2
  let t15 := g 15 ^^^ l2
  let t16 := g 16 ^^^ h3
  let t17 := g 17 ^^^ l3
  let t18 := g 18 ^^^ h4
  let t19 := g 19 ^^^ l4
  let t20 := g 20 ^^^ h0
  let t21 := g 21 ^^^ l0
  let t22 := g 22 ^^^ h1
  let t23 := g 23 ^^^ l1
  let t24 := g 24 ^^^ h2
  let t25 := g 25 ^^^ l2
  let t26 := g 26 ^^^ h3
  let t27 := g 27 ^^^ l3
  let t28 := g 28 ^^^ h4
  let t29 := g 29 ^^^ l4
  let t30 := g 30 ^^^ h0
  let t31 := g 31 ^^^ l0
  let t32 := g 32 ^^^ h1
  let t33 := g 33 ^^^ l1
  let t34 := g 34 ^^^ h2
  let t35 := g 35 ^^^ l2
  let t36 := g 36 ^^^ h3
  let t37 := g 37 ^^^ l3
  let t38 := g 38 ^^^ h4
  let t39 := g 39 ^^^ l4
  let t40 := g 40 ^^^ h0
  let t41 := g 41 ^^^ l0
  let t42 := g 42 ^^^ h1
  let t43 := g 43 ^^^ l1
  let t44 := g 44 ^^^ h2
  let t45 := g 45 ^^^ l2
  let t46 := g 46 ^^^ h3
  let t47 := g 47 ^^^ l3
  let t48 := g 48 ^^^ h4
  let t49 := g 49 ^^^ l4
  -- rho + pi (the b-assignments of the source, verbatim order)
  let b0 := t0
  let b1 := t1
  let b32 := shl32 t11 4 ||| t10 >>> 28
  let b33 := shl32 t10 4 ||| t11 >>> 28
  let b14 := shl32 t20 3 ||| t21 >>> 29
  let b15 := shl32 t21 3 ||| t20 >>> 29
  let b46 := shl32 t31 9 ||| t30 >>> 23
  let b47 := shl32 t30 9 ||| t31 >>> 23
  let b28 := shl32 t40 18 ||| t41 >>> 14
  let b29 := shl32 t41 18 ||| t40 >>> 14
  let b20 := shl32 t2 1 ||| t3 >>> 31
  let b21 := shl32 t3 1 ||| t2 >>> 31
  let b2 := shl32 t13 12 ||| t12 >>> 20
  let b3 := shl32 t12 12 ||| t13 >>> 20
  let b34 := shl32 t22 10 ||| t23 >>> 22
  let b35 := shl32 t23 10 ||| t22 >>> 22
  let b16 := shl32 t33 13 ||| t32 >>> 19
  let b17 := shl32 t32 13 ||| t33 >>> 19
  let b48 := shl32 t42 2 ||| t43 >>> 30
  let b49 := shl32 t43 2 ||| t42 >>> 30
  let b40 := shl32 t5 30 ||| t4 >>> 2
  let b41 := shl32 t4 30 ||| t5 >>> 2
  let b22 := shl32 t14 6 ||| t15 >>> 26
  let b23 := shl32 t15 6 ||| t14 >>> 26
  let b4 := shl32 t25 11 ||| t24 >>> 21
  let b5 := shl32 t24 11 ||| t25 >>> 21
  let b36 := shl32 t34 15 ||| t35 >>> 17
  let b37 := shl32 t35 15 ||| t34 >>> 17
  let b18 := shl32 t45 29 ||| t44 >>> 3
  let b19 := shl32 t44 29 ||| t45 >>> 3
  let b10 := shl32 t6 28 ||| t7 >>> 4
  let b11 := shl32 t7 28 ||| t6 >>> 4
  let b42 := shl32 t17 23 ||| t16 >>> 9
  let b43 := shl32 t16 23 ||| t17 >>> 9
  let b24 := shl32 t26 25 ||| t27 >>> 7
  let b25 := shl32 t27 25 ||| t26 >>> 7
  let b6 := shl32 t36 21 ||| t37 >>> 11
  let b7 := shl32 t37 21 ||| t36 >>> 11
  let b38 := shl32 t47 24 ||| t46 >>> 8
  let b39 := shl32 t46 24 ||| t47 >>> 8
  let b30 := shl32 t8 27 ||| t9 >>> 5
  let b31 := shl32 t9 27 ||| t8 >>> 5
  let b12 := shl32 t18 20 ||| t19 >>> 12
  let b13 := shl32 t19 20 ||| t18 >>> 12
  let b44 := shl32 t29 7 ||| t28 >>> 25
  let b45 := shl32 t28 7 ||| t29 >>> 25
  let b26 := shl32 t38 8 ||| t39 >>> 24
  let b27 := shl32 t39 8 ||| t38 >>> 24
  let b8 := shl32 t48 14 ||| t49 >>> 18
  let b9 := shl32 t49 14 ||| t48 >>> 18
  -- chi + iota, producing the new state in index order 0..49
  [ (b0 ^^^ (bnot32 b2 &&& b4)) ^^^ RC.getD n 0,
    (b1 ^^^ (bnot32 b3 &&& b5)) ^^^ RC.getD (n + 1) 0,
    b2 ^^^ (bnot32 b4 &&& b6),
    b3 ^^^ (bnot32 b5 &&& b7),
    b4 ^^^ (bnot32 b6 &&& b8),
    b5 ^^^ (bnot32 b7 &&& b9),
    b6 ^^^ (bnot32 b8 &&& b0),
    b7 ^^^ (bnot32 b9 &&& b1),
    b8 ^^^ (bnot32 b0 &&& b2),
    b9 ^^^ (bnot32 b1 &&& b3),
    b10 ^^^ (bnot32 b12 &&& b14),
    b11 ^^^ (bnot32 b13 &&& b15),
    b12 ^^^ (bnot32 b14 &&& b16),
    b13 ^^^ (bnot32 b15 &&& b17),
    b14 ^^^ (bnot32 b16 &&& b18),
    b15 ^^^ (bnot32 b17 &&& b19),
    b16 ^^^ (bnot32 b18 &&& b10),
    b17 ^^^ (bnot32 b19 &&& b11),
    b18 ^^^ (bnot32 b10 &&& b12),
    b19 ^^^ (bnot32 b11 &&& b13),
    b20 ^^^ (bnot32 b22 &&& b24),
    b21 ^^^ (bnot32 b23 &&& b25),
    b22 ^^^ (bnot32 b24 &&& b26),
    b23 ^^^ (bnot32 b25 &&& b27),
    b24 ^^^ (bnot32 b26 &&& b28),
    b25 ^^^ (bnot32 b27 &&& b29),
    b26 ^^^ (bnot32 b28 &&& b20),
    b27 ^^^ (bnot32 b29 &&& b21),
    b28 ^^^ (bnot32 b20 &&& b22),
    b29 ^^^ (bnot32 b21 &&& b23),
    b30 ^^^ (bnot32 b32 &&& b34),
    b31 ^^^ (bnot32 b33 &&& b35),
    b32 ^^^ (bnot32 b34 &&& b36),
    b33 ^^^ (bnot32 b35 &&& b37),
    b34 ^^^ (bnot32 b36 &&& b38),
    b35 ^^^ (bnot32 b37 &&& b39),
    b36 ^^^ (bnot32 b38 &&& b30),
    b37 ^^^ (bnot32 b39 &&& b31),
    b38 ^^^ (bnot32 b30 &&& b32),
    b39 ^^^ (bnot32 b31 &&& b33),
    b40 ^^^ (bnot32 b42 &&& b44),
    b41 ^^^ (bnot32 b43 &&& b45),
    b42 ^^^ (bnot32 b44 &&& b46),
    b43 ^^^ (bnot32 b45 &&& b47),
    b44 ^^^ (bnot32 b46 &&& b48),
    b45 ^^^ (bnot32 b47 &&& b49),
    b46 ^^^ (bnot32 b48 &&& b40),
    b47 ^^^ (bnot32 b49 &&& b41),
    b48 ^^^ (bnot32 b40 &&& b42),
    b49 ^^^ (bnot32 b41 &&& b43) ]

/-- The 24 rounds of `f`; `fuel` counts remaining rounds, `n` is the
round-constant index advancing by 2 per round. -/
def keccakFAux : Nat → Nat → List Nat → List Nat
  | 0, _, s => s
  | fuel + 1, n, s => keccakFAux fuel (n + 2) (keccakRound s n)

/-- The full permutation `f(s)` of the source. -/
def keccakF (s : List Nat) : List Nat := keccakFAux 24 0 s

/-- The streaming-absorption state of the source `Keccak` object,
specialized to `bits = 256` (`blockCount = 34`, `byteCount = 136`). -/
structure KeccakState where
  blocks : List Nat
  block : Nat
  s : List Nat
  reset : Bool
  start : Nat
  lastByteIndex : Nat
deriving Repr

/-- The object `new Keccak(256, KECCAK_PADDING, 256)`.  The JS `blocks` array starts
empty and `lastByteIndex` undefined; both are only ever read through
`|=`-style coercion to 0, so they are modelled as zeros. -/
def keccakInit : KeccakState :=
  { blocks := List.replicate 35 0, block := 0, s := List.replicate 50 0,
    reset := true, start := 0, lastByteIndex := 0 }

/-- The write `blocks[i >> 2] |= b << SHIFT[i & 3]` from the absorption loop. -/
def writeByte (blocks : List Nat) (i b : Nat) : List Nat :=
  blocks.set (i >>> 2) ((blocks.getD (i >>> 2) 0) ||| (b <<< SHIFT.getD (i % 4) 0))

/-- Absorb a run of bytes starting at byte offset `i`, returning the updated
block buffer and the final offset. -/
def writeBytes : List Nat → Nat → List Nat → List Nat × Nat
  | blocks, i, [] => (blocks, i)
  | blocks, i, b :: bs => writeBytes (writeByte blocks i b) (i + 1) bs

/-- The UTF-8 bytes the source `update` emits for one character.
JS iterates UTF-16 units and reassembles surrogate pairs into a code point;
The Lean `Char` is already the code point, so the reassembled 4-byte case is
expressed directly on the code point. -/
def utf8Bytes (c : Char) : List Nat :=
  let code := c.toNat
  if code < 0x80 then [code]
  else if code < 0x800 then
    [0xc0 ||| (code >>> 6), 0x80 ||| (code &&& 0x3f)]
  else if code < 0x10000 then
    [0xe0 ||| (code >>> 12), 0x80 ||| ((code >>> 6) &&& 0x3f),
     0x80 ||| (code &&& 0x3f)]
  else
    [0xf0 ||| (code >>> 18), 0x80 ||| ((code >>> 12) &&& 0x3f),
     0x80 ||| ((code >>> 6) &&& 0x3f), 0x80 ||| (code &&& 0x3f)]

/-- The loop `s[i] ^= blocks[i]` for `i < blockCount = 34`. -/
def xorBlock (s blocks : List Nat) : List Nat :=
  (List.range 50).map fun i =>
    if i < 34 then (s.getD i 0) ^^^ (blocks.getD i 0) else s.getD i 0

/-- One character of the `update` loop: re-initialize the block buffer when
`reset` is set (with the carried word in `blocks[0]`), write the bytes of the character, and absorb/permute when the 136-byte rate is reached (the boundary is
only checked between characters, as in the source inner `for` loop). -/
def stepChar (st : KeccakState) (c : Char) : KeccakState :=
  let st :=
    if st.reset then
      { st with reset := false, blocks := st.block :: List.replicate 34 0 }
    else st
  let wi := writeBytes st.blocks st.start (utf8Bytes c)
  let blocks := wi.1
  let i := wi.2
  if 136 ≤ i then
    { blocks := blocks, block := blocks.getD 34 0,
      s := keccakF (xorBlock st.s blocks), reset := true,
      start := i - 136, lastByteIndex := i }
  else
    { st with blocks := blocks, start := i, lastByteIndex := i }

/-- Method `Keccak.prototype.update` on a string message. -/
def keccakUpdate (st : KeccakState) (msg : String) : KeccakState :=
  msg.data.foldl stepChar st

/-- Method `Keccak.prototype.finalize`: apply the Keccak `0x01` domain padding at
`lastByteIndex`, handle the exactly-full-block case, set the final `0x80`
bit, and run the last permutation.  Returns the final sponge state. -/
def keccakFinalize (st : KeccakState) : List Nat :=
  let i := st.lastByteIndex
  let blocks := st.blocks.set (i >>> 2)
    ((st.blocks.getD (i >>> 2) 0) ||| KECCAK_PADDING.getD (i % 4) 0)
  let blocks :=
    if i = 136 then (blocks.getD 34 0) :: List.replicate 34 0 else blocks
  let blocks := blocks.set 33 ((blocks.getD 33 0) ||| 0x80000000)
  keccakF (xorBlock st.s blocks)

/-- The array `HEX_CHARS` of the source (`"0123456789abcdef".split("")`). -/
def HEX_CHARS : List Char := ("0123456789abcdef" : String).data

/-- The eight hex characters the `hex()` output routine emits for one 32-bit
state word (little-endian bytes, high nibble of each byte first). -/
def wordHex (w : Nat) : List Char :=
  [HEX_CHARS.getD ((w >>> 4) &&& 15) '0', HEX_CHARS.getD (w &&& 15) '0',
   HEX_CHARS.getD ((w >>> 12) &&& 15) '0', HEX_CHARS.getD ((w >>> 8) &&& 15) '0',
   HEX_CHARS.getD ((w >>> 20) &&& 15) '0', HEX_CHARS.getD ((w >>> 16) &&& 15) '0',
   HEX_CHARS.getD ((w >>> 28) &&& 15) '0', HEX_CHARS.getD ((w >>> 24) &&& 15) '0']

/-- Method `Keccak.prototype.hex` for 256-bit output: `outputBlocks = 8` words, no
extra bytes, and `8 < blockCount` so a single squeeze suffices. -/
def keccakHexOut (s : List Nat) : String :=
  ⟨((List.range 8).map fun i => wordHex (s.getD i 0)).flatten⟩

/-- Function `keccak256(message)` as exposed to the components (the js-sha3
`keccak_256` hex output; the standalone bundle export prepends `"0x"`,
see `keccak256With0x`). -/
def keccak256Hex (msg : String) : String :=
  keccakHexOut (keccakFinalize (keccakUpdate keccakInit msg))

/-- The standalone bundle `export function keccak256`: `"0x" + hex`. -/
def keccak256With0x (msg : String) : String := "0x" ++ keccak256Hex msg

/-! ## Hex / number-rendering helpers (JS `BigInt` and `Number` methods) -/

/-- Little-endian hex digits via repeated division, with structural fuel
(so that the kernel can evaluate it; `hexRev` below supplies ample fuel). -/
def hexRevF : Nat → Nat → List Char
  | 0, _ => []
  | fuel + 1, n =>
    if n = 0 then [] else Nat.digitChar (n % 16) :: hexRevF fuel (n / 16)

/-- Little-endian hex digits of `n` (empty for 0), via repeated division:
the digit stream of JS `BigInt.prototype.toString(16)`. -/
def hexRev (n : Nat) : List Char := hexRevF n n

/-- JS `BigInt(n).toString(16)` for a non-negative value: lowercase hex,
`"0"` for zero. -/
def natToHexL (n : Nat) : List Char :=
  if n = 0 then ['0'] else (hexRev n).reverse

/-- JS `BigInt(i).toString(16)`: a leading `'-'` for negative values. -/
def jsIntToHexL (i : Int) : List Char :=
  if i < 0 then '-' :: natToHexL i.natAbs else natToHexL i.toNat

/-- JS `String.prototype.padStart(n, "0")` on char lists. -/
def padStartL (n : Nat) (c : Char) (l : List Char) : List Char :=
  List.replicate (n - l.length) c ++ l

/-- JS `String.prototype.padEnd(n, "0")` on char lists. -/
def padEndL (n : Nat) (c : Char) (l : List Char) : List Char :=
  l ++ List.replicate (n - l.length) c

/-- Value of one digit character in a given radix (supports both letter
cases), `none` when the character is not a digit of that radix. -/
def digitValRadix? (radix : Nat) (c : Char) : Option Nat :=
  let v :=
    if '0' ≤ c ∧ c ≤ '9' then some (c.toNat - '0'.toNat)
    else if 'a' ≤ c ∧ c ≤ 'z' then some (c.toNat - 'a'.toNat + 10)
    else if 'A' ≤ c ∧ c ≤ 'Z' then some (c.toNat - 'A'.toNat + 10)
    else none
  match v with
  | some d => if d < radix then some d else none
  | none => none

/-- Big-endian digit-list evaluation, failing on any non-digit. -/
def radixValGo (radix acc : Nat) : List Char → Option Nat
  | [] => some acc
  | c :: cs =>
    match digitValRadix? radix c with
    | none => none
    | some d => radixValGo radix (acc * radix + d) cs

/-- Digit-string value in a radix; `none` for the empty string or any
invalid character (JS `BigInt("0x" + s)` et al. throw in those cases). -/
def radixVal? (radix : Nat) (l : List Char) : Option Nat :=
  if l = [] then none else radixValGo radix 0 l

/-- JS string trim (both ends) on char lists. -/
def jsTrim (l : List Char) : List Char :=
  ((l.dropWhile Char.isWhitespace).reverse.dropWhile Char.isWhitespace).reverse

/-- JS `BigInt(string)`: trim; empty means 0; optional sign for decimal;
`0x`/`0o`/`0b` radix prefixes; anything else throws (`none`). -/
def jsBigIntOfStr? (s : String) : Option Int :=
  match jsTrim s.data with
  | [] => some 0
  | '-' :: rest => (radixVal? 10 rest).map fun n => -(n : Int)
  | '+' :: rest => (radixVal? 10 rest).map fun n => (n : Int)
  | '0' :: 'x' :: rest => (radixVal? 16 rest).map fun n => (n : Int)
  | '0' :: 'X' :: rest => (radixVal? 16 rest).map fun n => (n : Int)
  | '0' :: 'o' :: rest => (radixVal? 8 rest).map fun n => (n : Int)
  | '0' :: 'O' :: rest => (radixVal? 8 rest).map fun n => (n : Int)
  | '0' :: 'b' :: rest => (radixVal? 2 rest).map fun n => (n : Int)
  | '0' :: 'B' :: rest => (radixVal? 2 rest).map fun n => (n : Int)
  | l => (radixVal? 10 l).map fun n => (n : Int)

/-- Floor of the base-2 logarithm, with structural fuel (ample at
`fuel = n`) so the kernel can evaluate it. -/
def log2F : Nat → Nat → Nat
  | 0, _ => 0
  | fuel + 1, n => if n < 2 then 0 else log2F fuel (n / 2) + 1

/-- The exact integer value of the IEEE-754 double nearest to `n`
(round-to-nearest, ties to even): exact below `2^53`; above, `n` is rounded
to a multiple of the unit in the last place of its binade.  Overflow past
the double range is handled by `natToDouble?`. -/
def roundNatToDouble (n : Nat) : Nat :=
  if n < 2 ^ 53 then n
  else
    let k := log2F n n
    let ulp := 2 ^ (k - 52)
    let q := n / ulp
    let r := n % ulp
    if r * 2 < ulp then q * ulp
    else if ulp < r * 2 then (q + 1) * ulp
    else if q % 2 = 0 then q * ulp else (q + 1) * ulp

/-- The JS Number (double) for the mathematical integer `n`: its exact
integer value when finite, `none` for overflow to `Infinity` (a rounded
value reaching `2^1024`). -/
def natToDouble? (n : Nat) : Option Nat :=
  let r := roundNatToDouble n
  if 2 ^ 1024 ≤ r then none else some r

/-- A value `parseInt` can return other than `NaN`: a finite integral
double (its exact integer value; the sign of JS negative zero is dropped,
which `toString` cannot observe) or a signed `Infinity`. -/
inductive JsNum
  | finite (i : Int)
  | inf (neg : Bool)
deriving DecidableEq, Repr

/-- JS `Number.prototype.toString(16)` on a `parseInt` result: lowercase
hex of the integral double (with a leading `'-'` when negative), and the
literal `"Infinity"` text for the infinities. -/
def jsNumToHexL : JsNum → List Char
  | .finite i => jsIntToHexL i
  | .inf neg => if neg then '-' :: ("Infinity" : String).data
                else ("Infinity" : String).data

/-- The number `parseInt` produces from a (possibly empty) run of decimal
digits and a sign: the exact digit value converted to a double —
`none` is `NaN` (empty run). -/
def jsDigitsToNumber (neg : Bool) (digits : List Char) : Option JsNum :=
  match radixVal? 10 digits with
  | none => none
  | some v =>
    match natToDouble? v with
    | none => some (.inf neg)
    | some r => some (.finite (if neg then -(r : Int) else (r : Int)))

/-- JS `parseInt(s, 10)`: trim leading whitespace, optional sign, then the
maximal leading run of decimal digits (trailing garbage ignored); `NaN`
(here `none`) when that run is empty.  The result is a double: digit
strings of `2^53` and beyond are rounded to the nearest representable
value, and values past the double range become `Infinity`. -/
def jsParseInt10 (l : List Char) : Option JsNum :=
  let l := l.dropWhile Char.isWhitespace
  match l with
  | '-' :: rest => jsDigitsToNumber true (rest.takeWhile Char.isDigit)
  | '+' :: rest => jsDigitsToNumber false (rest.takeWhile Char.isDigit)
  | _ => jsDigitsToNumber false (l.takeWhile Char.isDigit)

/-- JS `String.prototype.replace(pat, "")` for a literal pattern: remove the
first occurrence, scanning left to right. -/
def stripFirstL (pat : List Char) : List Char → List Char
  | [] => []
  | c :: cs =>
    if pat.isPrefixOf (c :: cs) then (c :: cs).drop pat.length
    else c :: stripFirstL pat cs

/-- JS `String.prototype.slice(-k)`: the last `k` characters (the whole
string when shorter than `k`). -/
def jsSliceNeg (l : List Char) (k : Nat) : List Char := l.drop (l.length - k)

/-! ## ABI data model and method resolution (`parseMethodFromAbi`) -/

/-- One entry of the `inputs`/`outputs` arrays of a method descriptor.  Absent
JSON fields are modelled as `""`. -/
structure AbiParam where
  name : String := ""
  type : String := ""
deriving DecidableEq, Repr

/-- One ABI descriptor.  Absent JSON fields are modelled as `""`/`[]`
(the source only ever reads them through `===` comparisons against string
literals or through `x || []`, where the two coincide). -/
structure AbiItem where
  name : String := ""
  type : String := ""
  stateMutability : String := ""
  inputs : List AbiParam := []
  outputs : List AbiParam := []
deriving DecidableEq, Repr

/-- The `find` callback of `parseMethodFromAbi`:
`item.type === "function" && item.name === methodName`. -/
def matchesMethod (methodName : String) (item : AbiItem) : Bool :=
  item.type == "function" && item.name == methodName

/-- The lookup `this.abi.find(...)` of `parseMethodFromAbi`. -/
def findMethod (abi : List AbiItem) (methodName : String) : Option AbiItem :=
  abi.find? (matchesMethod methodName)

/-- The test `method.stateMutability === "view" || method.stateMutability === "pure"`. -/
def isReadOnlyOf (m : AbiItem) : Bool :=
  m.stateMutability == "view" || m.stateMutability == "pure"

/-! ## Argument encoding (`encodeValue`, `encodeArguments`,
`encodeMethodSignature`) -/

/-- A JSON-decoded method argument (`method-args` entries). JSON numbers are
modelled as integers; a fractional number would make `BigInt` throw and is
out of the modelled input space. -/
inductive JsVal
  | str (s : String)
  | num (n : Int)
  | bool (b : Bool)
deriving DecidableEq, Repr

/-- JS `BigInt(value)` over the modelled argument values; `none` models a
thrown `SyntaxError`/`TypeError`. -/
def jsBigInt? : JsVal → Option Int
  | .str s => jsBigIntOfStr? s
  | .num n => some n
  | .bool b => some (if b then 1 else 0)

/-- JS string coercion (used by `TextEncoder.prototype.encode`). -/
def jsToString : JsVal → String
  | .str s => s
  | .num n => toString n
  | .bool b => if b then "true" else "false"

/-- UTF-8 bytes of a string (what `new TextEncoder().encode(value)` yields). -/
def utf8BytesOfString (s : String) : List Nat :=
  (s.data.map utf8Bytes).flatten

/-- Rendering `b.toString(16).padStart(2, "0")` for one byte. -/
def byteHexL (b : Nat) : List Char := padStartL 2 '0' (natToHexL b)

/-- Function `encodeValue(value, type)`; `none` models a thrown exception
(unparseable `BigInt` argument, or a non-string value for `address`,
whose `toLowerCase()` would throw). -/
def encodeValue (value : JsVal) (ty : String) : Option String :=
  if ty = "uint256" ∨ ty = "uint" then
    (jsBigInt? value).map fun i => ⟨padStartL 64 '0' (jsIntToHexL i)⟩
  else if ty = "address" then
    match value with
    | .str s =>
      some ⟨padStartL 64 '0' (stripFirstL ['0', 'x'] (s.data.map Char.toLower))⟩
    | _ => none
  else if ty = "string" then
    some ⟨padEndL 64 '0' ((utf8BytesOfString (jsToString value)).map byteHexL).flatten⟩
  else
    some ⟨List.replicate 64 '0'⟩

/-- The encoding loop of `encodeArguments`: argument `i` is paired with
`inputs[i]`; when `inputs[i]` is `undefined` the iteration `continue`s, and
since every later index is also out of range the remaining arguments
contribute nothing. -/
def encodeArgsLoop : List JsVal → List AbiParam → Option String
  | [], _ => some ""
  | _ :: _, [] => some ""
  | a :: as, inp :: inps => do
    let e ← encodeValue a inp.type
    let rest ← encodeArgsLoop as inps
    pure (e ++ rest)

/-- Function `encodeArguments()` of the component, abstracted over the resolved
resolved-method `inputs` and the element `methodArgs`. -/
def encodeArguments (inputs : List AbiParam) (args : List JsVal) : Option String :=
  if inputs.isEmpty || args.isEmpty then some "" else encodeArgsLoop args inputs

/-- Function `encodeMethodSignature()`: canonical signature `name(type1,type2,...)`,
selector = `"0x"` + first 8 hex chars of its Keccak-256. -/
def encodeMethodSignature (methodName : String) (inputs : List AbiParam) : String :=
  let types := String.intercalate "," (inputs.map (·.type))
  let signature := methodName ++ "(" ++ types ++ ")"
  "0x" ++ (keccak256Hex signature).take 8

/-! ## Result decoding (`decodeResult`) -/

/-- UTF-8 decoding of the `string` output branch.  `TextDecoder` never
throws in its default mode; on byte sequences that are not valid UTF-8 it
substitutes replacement characters, which this model approximates by the
`catch` fallback (returning the undecoded data) — no claim exercises
invalid-UTF-8 payloads. -/
def decodeUtf8OrRaw (bytes : List Nat) (raw : List Char) : String :=
  match String.fromUTF8? ⟨⟨bytes.map fun b => UInt8.ofNat b⟩⟩ with
  | some s => s
  | none => ⟨raw⟩

/-- Pairing `data.match(/.\x7b2\x7d/g)`: consecutive character pairs (a trailing odd
character is dropped), then `parseInt(pair, 16)` per pair. -/
def hexPairs : List Char → List (List Char)
  | a :: b :: rest => [a, b] :: hexPairs rest
  | _ => []

/-- Function `decodeResult(result)` of the component, abstracted over the resolved
method `outputs`.  `.error ()` models a thrown exception (`BigInt` on a
non-hex payload); `.ok none` is JS `null`. -/
def decodeResult (outputs : List AbiParam) (result : String) :
    Except Unit (Option String) :=
  if result.data = [] ∨ result.data = ['0', 'x'] then .ok none
  else if outputs.isEmpty then .ok (some result)
  else
    match outputs with
    | [] => .ok (some result)
    | output :: _ =>
      let data := stripFirstL ['0', 'x'] result.data
      if output.type = "uint256" ∨ output.type = "uint" then
        match radixVal? 16 data with
        | none => .error ()
        | some n => .ok (some (Nat.repr n))
      else if output.type = "address" then
        .ok (some ⟨'0' :: 'x' :: jsSliceNeg data 40⟩)
      else if output.type = "string" then
        let bytes := (hexPairs data).map fun p => (radixVal? 16 p).getD 0
        .ok (some (decodeUtf8OrRaw bytes data))
      else .ok (some result)

/-! ## `normalizeChainId` (the `ContractRead` class in `connect-wallet.js`) -/

/-- Body of `normalizeChainId` on the character list of `String(chainId)`
(the `!chainId` guard for `null` lives in the `Option` wrapper below). -/
def normalizeChainIdL (l : List Char) : List Char :=
  if l = [] then ['0', 'x', '1']
  else if ['0', 'x'].isPrefixOf l then l.map Char.toLower
  else
    match jsParseInt10 l with
    | none => ['0', 'x', '1']
    | some num => '0' :: 'x' :: jsNumToHexL num

/-- Method `ContractRead.normalizeChainId`, `none` being a `null`/absent attribute.
Total: every branch returns a string, none throws. -/
def normalizeChainId (chainId : Option String) : String :=
  match chainId with
  | none => "0x1"
  | some s => ⟨normalizeChainIdL s.data⟩

/-! ## Element state and lifecycle (`ContractCall`) -/

/-- The element `result` field: `null`, a decoded read value, or the
`{ transactionHash }` object of a write call. -/
inductive CallResult
  | value (s : String)
  | tx (hash : String)
deriving DecidableEq, Repr

/-- The instance fields of the `ContractCall` element that the pipeline
reads or writes (presentation-only fields are omitted). -/
structure CCState where
  loading : Bool := false
  result : Option CallResult := none
  error : Option String := none
  abi : Option (List AbiItem) := none
  methodData : Option AbiItem := none
  contractAddress : String := ""
  chainId : String := "0x1"
  methodName : String := ""
  methodArgs : List JsVal := []
  abiUrl : String := ""
  buttonText : String := "Call Contract"
  isReadOnly : Bool := false
deriving DecidableEq, Repr

/-- The initial field values set by the constructor. -/
def ccInit : CCState := {}

/-- Method `parseMethodFromAbi()`: no-op when `abi` is `null` or `methodName` is
empty; on a missing method records the not-found message and returns with
`methodData`/`isReadOnly` untouched; otherwise stores the descriptor, the
read-only flag, and clears the error.  (The `render()` calls are pure
presentation.)  Total — the JS body cannot throw. -/
def parseMethodFromAbi (st : CCState) : CCState :=
  match st.abi with
  | none => st
  | some abi =>
    if st.methodName = "" then st
    else
      match findMethod abi st.methodName with
      | none =>
        { st with
          error := some ("Method \x27" ++ st.methodName ++ "\x27 not found in ABI") }
      | some m =>
        { st with methodData := some m, isReadOnly := isReadOnlyOf m,
                  error := none }

/-- An observed attribute change, with JSON-valued attributes
(`method-args`, `abi`) carried in already-parsed form: `…Parsed none`
models a removed attribute, `…Invalid` models a `JSON.parse` failure
(the `catch` branch). -/
inductive AttrChange
  | contractAddress (v : Option String)
  | chainId (v : Option String)
  | methodName (v : Option String)
  | methodArgsParsed (v : Option (List JsVal))
  | methodArgsInvalid
  | abiParsed (v : Option (List AbiItem))
  | abiInvalid
  | buttonText (v : Option String)
deriving DecidableEq, Repr

/-- Callback `attributeChangedCallback` after the `oldValue === newValue` early
return (`abi-url` fetching and the presentation-only attributes are not
modelled).  `newValue || default` is rendered through `Option`+emptiness. -/
def attributeChanged (st : CCState) (ch : AttrChange) : CCState :=
  match ch with
  | .contractAddress v => { st with contractAddress := v.getD "" }
  | .chainId v =>
    { st with chainId := if v.getD "" = "" then "0x1" else v.getD "" }
  | .methodName v =>
    parseMethodFromAbi { st with methodName := v.getD "" }
  | .methodArgsParsed v => { st with methodArgs := v.getD [] }
  | .methodArgsInvalid => { st with methodArgs := [] }
  | .abiParsed v => parseMethodFromAbi { st with abi := v }
  | .abiInvalid => { st with abi := none }
  | .buttonText v =>
    { st with buttonText := if v.getD "" = "" then "Call Contract" else v.getD "" }

/-! ## Transport orchestration (`callContract`) -/

/-- A JSON-RPC-style request the pipeline can issue.  `rpcPost` is the
direct HTTP JSON-RPC transport used only by the `ContractRead` fallback. -/
inductive Request
  | ethAccounts
  | ethChainId
  | walletSwitchEthereumChain (chainId : String)
  | ethCall (toAddr : String) (data : String)
  | ethSendTransaction (frm toAddr data gas gasPrice : String)
  | rpcPost (url : String) (toAddr : String) (data : String)
deriving DecidableEq, Repr

/-- Constructor tests used to state routing properties. -/
def Request.isSendTx : Request → Bool
  | .ethSendTransaction .. => true
  | _ => false

def Request.isEthCall : Request → Bool
  | .ethCall .. => true
  | _ => false

def Request.isRpcPost : Request → Bool
  | .rpcPost .. => true
  | _ => false

def Request.isSwitch : Request → Bool
  | .walletSwitchEthereumChain _ => true
  | _ => false

/-- The external world `callContract` interacts with: whether
`window.ethereum` is injected and the responses the wallet returns on this
call attempt (requests other than the chain switch are assumed to succeed;
claim-relevant failure modes are the absent wallet, the empty account list
and the failing switch). -/
structure WalletEnv where
  hasEthereum : Bool
  accounts : List String
  walletChainId : String
  switchOk : Bool
  switchError : String := ""
  callResponse : String := "0x"
  txResponse : String := ""
deriving DecidableEq, Repr

/-- Settle the state machine in an error state. -/
def ccFail (st : CCState) (msg : String) : CCState :=
  { st with loading := false, error := some msg }

/-- Method `callContract()`: returns the ordered list of wallet/RPC requests it
issues and the settled element state.  Mirrors the source control flow:
wallet-presence check, missing-info check, `eth_accounts`, `eth_chainId`,
conditional `wallet_switchEthereumChain` with the *stored* `chainId`, then
either `eth_call` + `decodeResult` (read-only) or `eth_sendTransaction`
with fixed gas fields (mutating).  `ContractCall` has no RPC fallback. -/
def callContract (st : CCState) (env : WalletEnv) : List Request × CCState :=
  if env.hasEthereum = false then
    ([], { st with error := some "Please install a wallet extension like MetaMask" })
  else
    match st.methodData with
    | none => ([], { st with error := some "Missing required contract information" })
    | some m =>
      if st.contractAddress = "" ∨ st.methodName = "" then
        ([], { st with error := some "Missing required contract information" })
      else
      let st1 := { st with loading := true, result := none, error := none }
      if env.accounts = [] then
        ([.ethAccounts], ccFail st1 "Please connect your wallet first")
      else if env.walletChainId ≠ st1.chainId ∧ env.switchOk = false then
        ([.ethAccounts, .ethChainId, .walletSwitchEthereumChain st1.chainId],
         ccFail st1 ("Failed to switch chain: " ++ env.switchError))
      else
        let pre : List Request :=
          if env.walletChainId = st1.chainId then [.ethAccounts, .ethChainId]
          else [.ethAccounts, .ethChainId, .walletSwitchEthereumChain st1.chainId]
        match encodeArguments m.inputs st1.methodArgs with
        | none =>
          -- an encoding exception lands in the catch block
          (pre, ccFail st1 "Cannot convert value to a BigInt")
        | some encodedArgs =>
          let data := encodeMethodSignature st1.methodName m.inputs ++ encodedArgs
          if isReadOnlyOf m then
            let trace := pre ++ [.ethCall st1.contractAddress data]
            match decodeResult m.outputs env.callResponse with
            | .error _ => (trace, ccFail st1 "Cannot convert value to a BigInt")
            | .ok v =>
              (trace, { st1 with loading := false, result := v.map CallResult.value })
          else
            let trace := pre ++
              [.ethSendTransaction (env.accounts.headD "") st1.contractAddress data
                "0x30D40" "0x4A817C800"]
            (trace, { st1 with loading := false,
                               result := some (.tx env.txResponse) })

/-! ## Specification-side helpers and concrete fixtures -/

/-- Concatenation of a list of strings (the specification-side shape used to
characterize the encoding loop). -/
def concatAll (l : List String) : String := l.foldr (· ++ ·) ""

/-- Lower-case hexadecimal digit test (used to state what a valid address
character is). -/
def isLowerHexChar (c : Char) : Bool := c.isDigit || ('a' ≤ c && c ≤ 'f')

/-- ABI fixture with an overload and a same-name non-function entry:
resolution must pick the first `type == "function"` match. -/
def w4Abi : List AbiItem :=
  [ { name := "bump", type := "function", stateMutability := "view" },
    { name := "increment", type := "event", stateMutability := "nonpayable" },
    { name := "increment", type := "function", stateMutability := "view" },
    { name := "increment", type := "function", stateMutability := "nonpayable" } ]

/-- The descriptor resolution returns on `w4Abi` for `"increment"`. -/
def w4M : AbiItem :=
  { name := "increment", type := "function", stateMutability := "view" }

/-- ABI of the README example for `contract-call` (the entry relevant to the
chain-mismatch scenario). -/
def c5Abi : List AbiItem :=
  [ { name := "increment", type := "function", stateMutability := "nonpayable" } ]

/-- The element state after setting the README-example attributes
`contract-address`, `chain-id="11155111"` (decimal), `abi`, `method-name`. -/
def c5State : CCState :=
  attributeChanged
    (attributeChanged
      (attributeChanged
        (attributeChanged ccInit
          (.contractAddress (some "0x8C9EC9c13812C7F9F26AB934d4bF36206240dDA8")))
        (.chainId (some "11155111")))
      (.abiParsed (some c5Abi)))
    (.methodName (some "increment"))

/-- Wallet environment reporting active chain `0x1` with a switch that
would succeed. -/
def c5Env : WalletEnv :=
  { hasEthereum := true, accounts := ["0xsender"], walletChainId := "0x1",
    switchOk := true }

/-- Fixture method for the write-routing scenario. -/
def w7M : AbiItem :=
  { name := "increment", type := "function", stateMutability := "nonpayable" }

/-- Element state with a resolved non-payable method and matching chain. -/
def w7State : CCState :=
  { ccInit with contractAddress := "0xabc", methodName := "increment",
                abi := some [w7M], methodData := some w7M }

/-- Wallet environment whose active chain equals the configured one. -/
def w7Env : WalletEnv :=
  { hasEthereum := true, accounts := ["0xme"], walletChainId := "0x1",
    switchOk := true }

/-- ABI without the requested method. -/
def w8Abi : List AbiItem :=
  [ { name := "other", type := "function", stateMutability := "view" } ]

/-- Element state holding a previously resolved method and result, about to
resolve a missing method name. -/
def w8State : CCState :=
  { ccInit with abi := some w8Abi, methodName := "missing",
                methodData := some { name := "other", type := "function",
                                     stateMutability := "view" },
                isReadOnly := true, result := some (.value "9") }

/-- ABI fixture for the attribute-change scenario. -/
def c9Abi : List AbiItem :=
  [ { name := "number", type := "function", stateMutability := "view" },
    { name := "increment", type := "function", stateMutability := "nonpayable" } ]

/-- A different parsed ABI value, for the abi-attribute-change case. -/
def c9Abi2 : List AbiItem :=
  [ { name := "number", type := "function", stateMutability := "view" } ]

/-- Element state holding a non-empty last call result. -/
def c9State : CCState :=
  { ccInit with abi := some c9Abi, methodName := "number",
                methodData := some { name := "number", type := "function",
                                     stateMutability := "view" },
                isReadOnly := true, result := some (.value "123") }

/-! ## Helper lemmas -/

theorem hexRevF_congr :
    ∀ (f₁ f₂ n : Nat), n ≤ f₁ → n ≤ f₂ → hexRevF f₁ n = hexRevF f₂ n := by
  intro f₁
  induction f₁ with
  | zero =>
    intro f₂ n h₁ _
    have hn : n = 0 := Nat.le_zero.mp h₁
    subst hn
    cases f₂ with
    | zero => rfl
    | succ f₂ => simp [hexRevF]
  | succ f₁ ih =>
    intro f₂ n h₁ h₂
    by_cases hn : n = 0
    · subst hn
      cases f₂ with
      | zero => simp [hexRevF]
      | succ f₂ => simp [hexRevF]
    · cases f₂ with
      | zero => omega
      | succ f₂ =>
        simp only [hexRevF, hn, if_false]
        have hdiv : n / 16 < n := Nat.div_lt_self (Nat.pos_of_ne_zero hn) (by omega)
        rw [ih f₂ (n / 16) (by omega) (by omega)]

theorem hexRev_eq (n : Nat) :
    hexRev n = if n = 0 then [] else Nat.digitChar (n % 16) :: hexRev (n / 16) := by
  cases n with
  | zero => rfl
  | succ k =>
    show hexRevF (k + 1) (k + 1) = _
    simp only [hexRevF, Nat.succ_ne_zero, if_false]
    have hdiv : (k + 1) / 16 < k + 1 := Nat.div_lt_self (Nat.succ_pos k) (by omega)
    rw [hexRevF_congr k ((k + 1) / 16) ((k + 1) / 16) (by omega) (le_refl _)]
    rfl

theorem parseMethodFromAbi_result (st : CCState) :
    (parseMethodFromAbi st).result = st.result := by
  unfold parseMethodFromAbi
  cases st.abi with
  | none => rfl
  | some abi =>
    by_cases h : st.methodName = "" <;> simp only [h, if_true, if_false] <;>
      first
        | rfl
        | (cases findMethod abi st.methodName <;> rfl)

theorem stripFirstL_0x (l : List Char) :
    stripFirstL ['0', 'x'] ('0' :: 'x' :: l) = l := by
  simp [stripFirstL, List.isPrefixOf]

theorem stripFirstL_no_x (l : List Char) (h : ∀ c ∈ l, c ≠ 'x') :
    stripFirstL ['0', 'x'] l = l := by
  induction l with
  | nil => rfl
  | cons c cs ih =>
    have hpre : (['0', 'x'].isPrefixOf (c :: cs)) = false := by
      cases cs with
      | nil => simp [List.isPrefixOf]
      | cons d ds =>
        have hd : d ≠ 'x' := h d (by simp)
        simp [List.isPrefixOf, beq_iff_eq]
        intro _
        exact fun hdx => hd hdx.symm
    rw [stripFirstL, hpre]
    simp only [Bool.false_eq_true, if_false]
    rw [ih (fun x hx => h x (List.mem_cons_of_mem _ hx))]

theorem digitValRadix16_digitChar : ∀ d < 16,
    digitValRadix? 16 (Nat.digitChar d) = some d := by decide

theorem radixValGo_append (r acc : Nat) (l₁ l₂ : List Char) :
    radixValGo r acc (l₁ ++ l₂) =
      (radixValGo r acc l₁).bind (fun a => radixValGo r a l₂) := by
  induction l₁ generalizing acc with
  | nil => rfl
  | cons c cs ih =>
    simp only [List.cons_append, radixValGo]
    cases digitValRadix? r c with
    | none => rfl
    | some d => exact ih _

theorem hexRev_len (n : Nat) (h : n ≠ 0) :
    (hexRev n).length = (hexRev (n / 16)).length + 1 := by
  rw [hexRev_eq]
  simp [h]

theorem radixValGo_hexRev (n : Nat) : ∀ acc : Nat,
    radixValGo 16 acc (hexRev n).reverse =
      some (acc * 16 ^ (hexRev n).length + n) := by
  induction n using Nat.strong_induction_on with
  | _ n ih =>
    intro acc
    by_cases h : n = 0
    · subst h
      rw [hexRev_eq]
      simp [radixValGo]
    · rw [hexRev_eq]
      simp only [h, if_false]
      rw [List.reverse_cons, radixValGo_append]
      have hlt : n / 16 < n := Nat.div_lt_self (Nat.pos_of_ne_zero h) (by omega)
      rw [ih (n / 16) hlt acc]
      simp only [Option.some_bind]
      rw [radixValGo]
      rw [digitValRadix16_digitChar (n % 16) (Nat.mod_lt _ (by omega))]
      simp only [radixValGo]
      congr 1
      have hmod : 16 * (n / 16) + n % 16 = n := Nat.div_add_mod n 16
      have halg : (acc * 16 ^ (hexRev (n / 16)).length + n / 16) * 16 + n % 16
          = acc * (16 ^ (hexRev (n / 16)).length * 16) + (16 * (n / 16) + n % 16) := by
        ring
      rw [List.length_cons, pow_succ, halg, hmod]

theorem natToHexL_ne_nil (n : Nat) : natToHexL n ≠ [] := by
  unfold natToHexL
  by_cases h : n = 0
  · simp [h]
  · simp only [h, if_false]
    rw [hexRev_eq]
    simp [h]

theorem radixValGo_natToHexL (n : Nat) :
    radixValGo 16 0 (natToHexL n) = some n := by
  unfold natToHexL
  by_cases h : n = 0
  · subst h; decide
  · simp only [h, if_false]
    rw [radixValGo_hexRev n 0]
    simp

theorem radixValGo_replicate_zero (k : Nat) (l : List Char) :
    radixValGo 16 0 (List.replicate k '0' ++ l) = radixValGo 16 0 l := by
  induction k with
  | zero => simp
  | succ k ih =>
    rw [List.replicate_succ, List.cons_append, radixValGo]
    have h0 : digitValRadix? 16 '0' = some 0 := by decide
    rw [h0]
    simpa using ih

theorem radixVal_padStart_natToHexL (n : Nat) :
    radixVal? 16 (padStartL 64 '0' (natToHexL n)) = some n := by
  unfold radixVal? padStartL
  have hne : List.replicate (64 - (natToHexL n).length) '0' ++ natToHexL n ≠ [] := by
    simp [natToHexL_ne_nil n]
  rw [if_neg hne, radixValGo_replicate_zero, radixValGo_natToHexL]

theorem padStartL_ne_nil (c : Char) (l : List Char) (h : l ≠ []) :
    padStartL 64 c l ≠ [] := by
  unfold padStartL
  simp [h]

theorem find?_first {α : Type} (p : α → Bool) :
    ∀ (l : List α) (a : α), l.find? p = some a →
      p a = true ∧ ∃ l₁ l₂, l = l₁ ++ a :: l₂ ∧ ∀ x ∈ l₁, p x = false := by
  intro l
  induction l with
  | nil => intro a h; simp at h
  | cons b bs ih =>
    intro a h
    rw [List.find?_cons] at h
    cases hb : p b with
    | true =>
      rw [hb] at h
      simp only at h
      cases h
      exact ⟨hb, [], bs, rfl, by simp⟩
    | false =>
      rw [hb] at h
      simp only at h
      obtain ⟨hpa, l₁, l₂, heq, hall⟩ := ih a h
      exact ⟨hpa, b :: l₁, l₂, by rw [heq]; rfl,
        fun x hx => by
          rcases List.mem_cons.mp hx with hxb | hxl
          · exact hxb ▸ hb
          · exact hall x hxl⟩

theorem encodeArgsLoop_eq (args : List JsVal) (inputs : List AbiParam) :
    encodeArgsLoop args inputs =
      ((args.zip inputs).mapM fun p => encodeValue p.1 p.2.type).map concatAll := by
  induction args generalizing inputs with
  | nil => rw [List.zip_nil_left, List.mapM_nil]; rfl
  | cons a as ih =>
    cases inputs with
    | nil => rw [List.zip_nil_right, List.mapM_nil]; rfl
    | cons i is =>
      rw [List.zip_cons_cons, List.mapM_cons]
      show (encodeValue a i.type).bind
          (fun e => (encodeArgsLoop as is).bind fun rest => some (e ++ rest)) = _
      cases he : encodeValue a i.type with
      | none => simp
      | some e =>
        rw [ih]
        cases hm : (as.zip is).mapM fun p => encodeValue p.1 p.2.type with
        | none => simp
        | some l => simp [concatAll]

theorem isPrefixOf_0x_iff (l : List Char) :
    (['0', 'x'].isPrefixOf l) = true ↔ ∃ rest, l = '0' :: 'x' :: rest := by
  cases l with
  | nil => simp [List.isPrefixOf]
  | cons c cs =>
    cases cs with
    | nil => simp [List.isPrefixOf]
    | cons d ds =>
      constructor
      · intro h
        simp only [List.isPrefixOf, Bool.and_eq_true, beq_iff_eq] at h
        obtain ⟨h1, h2, -⟩ := h
        exact ⟨ds, by rw [← h1, ← h2]⟩
      · rintro ⟨rest, heq⟩
        simp only [List.cons.injEq] at heq
        obtain ⟨h1, h2, h3⟩ := heq
        subst h1; subst h2; subst h3
        simp [List.isPrefixOf]

/-! ## Claim theorems -/

/-- C1 (counterexample): applied to the empty string, the Keccak-256
primitive does not produce the digest string quoted in the spec — the
quoted value has only 63 hex characters (its trailing `0` is missing),
while the code always emits 64. -/
theorem keccak256_empty_ne_spec_digest :
    keccak256Hex "" ≠
      "c5d2460186f7233c927e7db2dcc703c0e500b653ca82273b7bfad8045d85a47" := by
  decide

/-- C1 (amended): the Keccak-256 primitive on string input matches the
canonical Keccak (not SHA3-256) test vectors; the empty-input digest is the
64-character `c5…a470` (the spec dropped its final `0`), and the `"abc"`
digest is exactly as the spec states. -/
theorem keccak256_test_vectors :
    keccak256Hex "" =
      "c5d2460186f7233c927e7db2dcc703c0e500b653ca82273b7bfad8045d85a470"
    ∧ keccak256Hex "abc" =
      "4e03657aea45a94fc7d47ba826c8d667c0d1e6e33a64a036ec44f58fa12d6c45" :=
  ⟨by decide, by decide⟩

/-- C2: for every `N < 2^256`, encoding `N` as `uint256` succeeds, and
decoding the payload `"0x" ++ encodeValue(N, "uint256")` with declared
output type `uint256` yields the decimal string representation of `N`.
(The bound is the claim's hypothesis; the computation never consults it.) -/
theorem uint256_roundtrip (n : Nat) (h : n < 2 ^ 256) :
    ∃ e : String,
      encodeValue (.num (n : Int)) "uint256" = some e ∧
        decodeResult [{ name := "", type := "uint256" }] ("0x" ++ e) =
          .ok (some (Nat.repr n)) := by
  refine ⟨⟨padStartL 64 '0' (natToHexL n)⟩, ?_, ?_⟩
  · have hnn : ¬((n : Int) < 0) := Int.not_lt.mpr (Int.natCast_nonneg n)
    simp [encodeValue, jsBigInt?, jsIntToHexL, hnn, Int.toNat_ofNat]
  · have hdata : (("0x" : String) ++ ⟨padStartL 64 '0' (natToHexL n)⟩).data
        = '0' :: 'x' :: padStartL 64 '0' (natToHexL n) := by
      rw [String.data_append]
      rfl
    have hne : padStartL 64 '0' (natToHexL n) ≠ [] :=
      padStartL_ne_nil '0' _ (natToHexL_ne_nil n)
    rw [decodeResult, hdata]
    rw [if_neg (by simp [hne])]
    simp only [List.isEmpty_cons, if_false, Bool.false_eq_true]
    rw [stripFirstL_0x]
    rw [if_pos (by simp)]
    rw [radixVal_padStart_natToHexL]

/-- C3: the argument encoding is positional and lossy exactly as claimed:
it equals the concatenation of `encodeValue(args[i], inputs[i].type)` over
the positional zip of arguments and inputs (so extra arguments beyond
`inputs.length` and inputs beyond `args.length` contribute nothing, with no
zero-fill), and it is the empty string whenever `inputs` or the argument
list is empty, leaving the encoded call as the selector only. -/
theorem encodeArguments_positional :
    (∀ (inputs : List AbiParam) (args : List JsVal),
        encodeArguments inputs args =
          ((args.zip inputs).mapM fun p => encodeValue p.1 p.2.type).map concatAll)
    ∧ (∀ inputs : List AbiParam, encodeArguments inputs [] = some "")
    ∧ (∀ args : List JsVal, encodeArguments [] args = some "") := by
  refine ⟨fun inputs args => ?_, fun inputs => by simp [encodeArguments],
    fun args => by simp [encodeArguments]⟩
  unfold encodeArguments
  by_cases hi : inputs.isEmpty
  · rw [List.isEmpty_iff] at hi
    subst hi
    simp only [List.isEmpty_nil, Bool.true_or, if_true, List.zip_nil_right]
    rfl
  · by_cases ha : args.isEmpty
    · rw [List.isEmpty_iff] at ha
      subst ha
      simp only [List.isEmpty_nil, Bool.or_true, if_true, List.zip_nil_left]
      rfl
    · simp only [hi, ha, Bool.or_self, if_false, Bool.false_eq_true]
      exact encodeArgsLoop_eq args inputs

/-- C2 witness: the round-trip instantiated at `N = 123` (the spec's read
scenario value). -/
theorem uint256_roundtrip_witness :
    (123 : Nat) < 2 ^ 256
    ∧ ∃ e : String,
        encodeValue (.num ((123 : Nat) : Int)) "uint256" = some e
        ∧ decodeResult [{ name := "", type := "uint256" }] ("0x" ++ e) =
            .ok (some (Nat.repr 123)) :=
  ⟨by norm_num, uint256_roundtrip 123 (by norm_num)⟩

/-- C4: method resolution returns the first descriptor whose `type` is
`"function"` and whose `name` matches (everything before it in the ABI
fails that test, so later matches and overloads are never selected), and
the resolved method is classified read-only exactly when its
`stateMutability` is `"view"` or `"pure"`. -/
theorem method_resolution (abi : List AbiItem) (nm : String) (m : AbiItem)
    (h : findMethod abi nm = some m) :
    m.type = "function" ∧ m.name = nm
    ∧ (∃ pre post, abi = pre ++ m :: post
        ∧ ∀ x ∈ pre, ¬(x.type = "function" ∧ x.name = nm))
    ∧ (isReadOnlyOf m = true ↔
        (m.stateMutability = "view" ∨ m.stateMutability = "pure")) := by
  obtain ⟨hpm, pre, post, heq, hall⟩ := find?_first (matchesMethod nm) abi m h
  have hm2 : m.type = "function" ∧ m.name = nm := by
    simpa [matchesMethod, Bool.and_eq_true, beq_iff_eq] using hpm
  refine ⟨hm2.1, hm2.2, ⟨pre, post, heq, fun x hx => ?_⟩, ?_⟩
  · rintro ⟨h1, h2⟩
    have htrue : matchesMethod nm x = true := by
      simp [matchesMethod, beq_iff_eq, h1, h2]
    rw [hall x hx] at htrue
    exact Bool.false_ne_true htrue
  · simp [isReadOnlyOf, Bool.or_eq_true, beq_iff_eq]

/-- C4 witness: on an ABI with a same-name `event` entry first and two
same-name `function` overloads, resolution returns the first overload (the
`view` one) and classifies it read-only. -/
theorem method_resolution_witness :
    findMethod w4Abi "increment" = some w4M
    ∧ (w4M.type = "function" ∧ w4M.name = "increment"
      ∧ (∃ pre post, w4Abi = pre ++ w4M :: post
          ∧ ∀ x ∈ pre, ¬(x.type = "function" ∧ x.name = "increment"))
      ∧ (isReadOnlyOf w4M = true ↔
          (w4M.stateMutability = "view" ∨ w4M.stateMutability = "pure"))) :=
  ⟨by decide, method_resolution w4Abi "increment" w4M (by decide)⟩

/-- C5 (the code at the failing input): with the element configured via its
attributes to `chain-id="11155111"` (decimal) and the wallet reporting
active chain `"0x1"`, `callContract` issues `wallet_switchEthereumChain`
carrying the raw attribute string `"11155111"` — never one carrying the
normalized `"0xaa36a7"` — before dispatching the transaction;
`normalizeChainId` (defined in `ContractRead` but never called by
`ContractCall`) is what would have produced `"0xaa36a7"`. -/
theorem contractCall_switch_chain_unnormalized :
    (callContract c5State c5Env).1.contains
        (.walletSwitchEthereumChain "0xaa36a7") = false
    ∧ (callContract c5State c5Env).1.contains
        (.walletSwitchEthereumChain "11155111") = true
    ∧ (callContract c5State c5Env).1.countP Request.isSendTx = 1
    ∧ normalizeChainId (some "11155111") = "0xaa36a7" := by
  refine ⟨by decide, by decide, by decide, by decide⟩

/-- C6: encoding a valid 20-byte address (40 hex characters, with or
without a leading `"0x"`) with type `"address"` yields exactly 64 hex
characters: the last 40 are the lowercased input without the `"0x"` prefix
and the first 24 are `'0'`. -/
theorem encodeValue_address_padding (core : List Char) (withPrefix : Bool)
    (hlen : core.length = 40)
    (hhex : ∀ c ∈ core, isLowerHexChar (Char.toLower c) = true) :
    ∃ e : String,
      encodeValue (.str ⟨if withPrefix then '0' :: 'x' :: core else core⟩)
          "address" = some e
      ∧ e.data.length = 64
      ∧ e.data.drop 24 = core.map Char.toLower
      ∧ e.data.take 24 = List.replicate 24 '0' := by
  have hstrip : stripFirstL ['0', 'x']
      ((if withPrefix then '0' :: 'x' :: core else core).map Char.toLower)
      = core.map Char.toLower := by
    cases withPrefix with
    | true =>
      simp only [if_true]
      have h0 : Char.toLower '0' = '0' := by decide
      have hx : Char.toLower 'x' = 'x' := by decide
      rw [List.map_cons, List.map_cons, h0, hx, stripFirstL_0x]
    | false =>
      simp only [Bool.false_eq_true, if_false]
      apply stripFirstL_no_x
      intro c hc
      obtain ⟨c₀, hc₀, rfl⟩ := List.mem_map.mp hc
      intro hxeq
      have hh := hhex c₀ hc₀
      rw [hxeq] at hh
      exact absurd hh (by decide)
  have henc : encodeValue
      (.str ⟨if withPrefix then '0' :: 'x' :: core else core⟩) "address"
      = some ⟨padStartL 64 '0' (stripFirstL ['0', 'x']
          ((if withPrefix then '0' :: 'x' :: core else core).map Char.toLower))⟩ := by
    rw [encodeValue]
    rw [if_neg (by decide), if_pos rfl]
  rw [hstrip] at henc
  have hml : (core.map Char.toLower).length = 40 := by
    rw [List.length_map, hlen]
  have hpad : padStartL 64 '0' (core.map Char.toLower)
      = List.replicate 24 '0' ++ core.map Char.toLower := by
    unfold padStartL
    rw [hml]
  refine ⟨_, henc, ?_, ?_, ?_⟩
  · show (padStartL 64 '0' (core.map Char.toLower)).length = 64
    rw [hpad]
    simp [hml]
  · show (padStartL 64 '0' (core.map Char.toLower)).drop 24 = core.map Char.toLower
    rw [hpad]
    have hd := List.drop_left (List.replicate 24 '0') (core.map Char.toLower)
    rwa [List.length_replicate] at hd
  · show (padStartL 64 '0' (core.map Char.toLower)).take 24 = List.replicate 24 '0'
    rw [hpad]
    have ht := List.take_left (List.replicate 24 '0') (core.map Char.toLower)
    rwa [List.length_replicate] at ht

/-- C6 witness: the padding invariant at the README's contract address
(mixed case, with the `"0x"` prefix). -/
theorem encodeValue_address_padding_witness :
    ("8C9EC9c13812C7F9F26AB934d4bF36206240dDA8" : String).data.length = 40
    ∧ ∃ e : String,
        encodeValue (.str ⟨'0' :: 'x' ::
            ("8C9EC9c13812C7F9F26AB934d4bF36206240dDA8" : String).data⟩)
          "address" = some e
        ∧ e.data.length = 64
        ∧ e.data.drop 24 =
            ("8C9EC9c13812C7F9F26AB934d4bF36206240dDA8" : String).data.map Char.toLower
        ∧ e.data.take 24 = List.replicate 24 '0' := by
  constructor
  · decide
  · have h := encodeValue_address_padding
      ("8C9EC9c13812C7F9F26AB934d4bF36206240dDA8" : String).data true
      (by decide) (by decide)
    simpa using h

/-- C7: a resolved method with `stateMutability = "nonpayable"` is not
read-only, and a successfully dispatched call for it goes through the
injected wallet as exactly one `eth_sendTransaction` request — never an
`eth_call` and never the direct-RPC transport (which `ContractCall` does
not even possess). -/
theorem nonpayable_routing (st : CCState) (env : WalletEnv) (m : AbiItem)
    (ea : String)
    (hm : st.methodData = some m)
    (hmu : m.stateMutability = "nonpayable")
    (hw : env.hasEthereum = true)
    (ha : st.contractAddress ≠ "")
    (hn : st.methodName ≠ "")
    (hacc : env.accounts ≠ [])
    (hsw : env.walletChainId = st.chainId ∨ env.switchOk = true)
    (henc : encodeArguments m.inputs st.methodArgs = some ea) :
    isReadOnlyOf m = false
    ∧ (callContract st env).1.countP Request.isSendTx = 1
    ∧ (callContract st env).1.countP Request.isEthCall = 0
    ∧ (callContract st env).1.countP Request.isRpcPost = 0 := by
  have hro : isReadOnlyOf m = false := by
    simp [isReadOnlyOf, hmu]
  have hinfo : ¬(st.contractAddress = "" ∨ st.methodName = "") := by
    push_neg
    exact ⟨ha, hn⟩
  have hchain : ¬(env.walletChainId ≠ st.chainId ∧ env.switchOk = false) := by
    rcases hsw with h1 | h2
    · rintro ⟨hc, -⟩
      exact hc h1
    · rintro ⟨-, hc⟩
      rw [h2] at hc
      exact absurd hc (by decide)
  refine ⟨hro, ?_⟩
  simp only [callContract, hm, hw, hinfo, hacc, hchain, henc, hro]
  by_cases hc : env.walletChainId = st.chainId <;>
    simp [hc, List.countP_cons, List.countP_append,
      Request.isSendTx, Request.isEthCall, Request.isRpcPost]

/-- C7 witness: the routing at a concrete state (resolved `increment()
nonpayable`, connected wallet on the configured chain). -/
theorem nonpayable_routing_witness :
    isReadOnlyOf w7M = false
    ∧ (callContract w7State w7Env).1.countP Request.isSendTx = 1
    ∧ (callContract w7State w7Env).1.countP Request.isEthCall = 0
    ∧ (callContract w7State w7Env).1.countP Request.isRpcPost = 0 :=
  nonpayable_routing w7State w7Env w7M "" rfl rfl rfl
    (by decide) (by decide) (by decide) (Or.inl rfl) rfl

/-- C8: resolving a method name with no matching `function` descriptor
records the human-readable not-found message in the error state without
throwing (the embedded transformer is total), and leaves `methodData`,
`isReadOnly` — and the stored result — unchanged. -/
theorem missing_method_state (st : CCState) (abi : List AbiItem)
    (hab : st.abi = some abi) (hmn : st.methodName ≠ "")
    (hf : findMethod abi st.methodName = none) :
    (parseMethodFromAbi st).error
        = some ("Method \x27" ++ st.methodName ++ "\x27 not found in ABI")
    ∧ (parseMethodFromAbi st).methodData = st.methodData
    ∧ (parseMethodFromAbi st).isReadOnly = st.isReadOnly
    ∧ (parseMethodFromAbi st).result = st.result := by
  unfold parseMethodFromAbi
  rw [hab]
  simp only
  rw [if_neg hmn, hf]
  simp

/-- C8 witness: a state holding a previously resolved `view` method and a
result, resolving the absent name `"missing"`. -/
theorem missing_method_state_witness :
    (parseMethodFromAbi w8State).error
        = some ("Method \x27" ++ w8State.methodName ++ "\x27 not found in ABI")
    ∧ (parseMethodFromAbi w8State).methodData = w8State.methodData
    ∧ (parseMethodFromAbi w8State).isReadOnly = w8State.isReadOnly
    ∧ (parseMethodFromAbi w8State).result = w8State.result :=
  missing_method_state w8State w8Abi rfl (by decide) (by decide)

/-- C9 (counterexample): changing the `method-name` attribute (to a name
present in the ABI) or the `abi` attribute does not reset the stored call
result — it survives unchanged, contradicting the claimed reset to empty. -/
theorem attrChange_keeps_result_counterexample :
    (attributeChanged c9State (.methodName (some "increment"))).result
        = some (.value "123")
    ∧ (attributeChanged c9State (.methodName (some "increment"))).result ≠ none
    ∧ (attributeChanged c9State (.abiParsed (some c9Abi2))).result
        = some (.value "123") := by
  refine ⟨by decide, by decide, by decide⟩

/-- C9 (amended): changing the `abi` or `method-name` attribute re-triggers
method resolution but leaves the element's stored call result exactly as it
was; nothing in the attribute-change path clears it (the result is only
cleared at the start of the next `callContract` invocation). -/
theorem attrChange_preserves_result (st : CCState) (v : Option String)
    (w : Option (List AbiItem)) :
    (attributeChanged st (.methodName v)).result = st.result
    ∧ (attributeChanged st (.abiParsed w)).result = st.result
    ∧ (attributeChanged st .abiInvalid).result = st.result := by
  refine ⟨?_, ?_, rfl⟩
  · show (parseMethodFromAbi { st with methodName := v.getD "" }).result = st.result
    rw [parseMethodFromAbi_result]
  · show (parseMethodFromAbi { st with abi := w }).result = st.result
    rw [parseMethodFromAbi_result]

/-- C10 (counterexample): at input `"9007199254740993"` (the decimal
rendering of `2^53 + 1`) the code returns `"0x20000000000000"` — the hex of
the value `parseInt` actually yields, an IEEE-754 double rounded down to
`2^53` — and not `"0x20000000000001"`, the lowercase hexadecimal rendering
of the input parsed as an exact decimal integer that the claim promises. -/
theorem normalizeChainId_rounds_at_2pow53 :
    normalizeChainId (some "9007199254740993") = "0x20000000000000"
    ∧ (⟨'0' :: 'x' :: jsIntToHexL (9007199254740993 : Int)⟩ : String)
        = "0x20000000000001"
    ∧ normalizeChainId (some "9007199254740993") ≠
        ⟨'0' :: 'x' :: jsIntToHexL (9007199254740993 : Int)⟩ :=
  ⟨by decide, by decide, by decide⟩

/-- C10 (amended): `normalizeChainId` is total, never throws, and always
yields a `"0x"`-prefixed string; it returns `"0x1"` for a null/empty or
unparseable input, the lowercased input unchanged when the input already
starts with `"0x"`, and otherwise `"0x"` followed by the `toString(16)`
rendering of the double `parseInt(input, 10)` returns (maximal digit
prefix after optional sign; exact lowercase hex below `2^53`, rounded to
the nearest double at and beyond it, and the text `"Infinity"` past the
double range). -/
theorem normalizeChainId_spec (x : Option String) :
    ['0', 'x'].isPrefixOf (normalizeChainId x).data = true
    ∧ (x = none ∨ x = some "" → normalizeChainId x = "0x1")
    ∧ (∀ s : String, x = some s → (['0', 'x'].isPrefixOf s.data) = true →
        normalizeChainId x = ⟨s.data.map Char.toLower⟩)
    ∧ (∀ s : String, x = some s → (['0', 'x'].isPrefixOf s.data) = false →
        jsParseInt10 s.data = none → normalizeChainId x = "0x1")
    ∧ (∀ (s : String) (num : JsNum), x = some s →
        (['0', 'x'].isPrefixOf s.data) = false →
        jsParseInt10 s.data = some num →
        normalizeChainId x = ⟨'0' :: 'x' :: jsNumToHexL num⟩) := by
  refine ⟨?_, ?_, ?_, ?_, ?_⟩
  · cases x with
    | none => decide
    | some s =>
      show ['0', 'x'].isPrefixOf (normalizeChainIdL s.data) = true
      unfold normalizeChainIdL
      by_cases h1 : s.data = []
      · simp [h1]
      · rw [if_neg h1]
        by_cases h2 : (['0', 'x'].isPrefixOf s.data) = true
        · rw [if_pos h2]
          obtain ⟨rest, hrest⟩ := (isPrefixOf_0x_iff _).mp h2
          rw [hrest, List.map_cons, List.map_cons]
          have h0 : Char.toLower '0' = '0' := by decide
          have hx : Char.toLower 'x' = 'x' := by decide
          rw [h0, hx]
          simp [List.isPrefixOf]
        · rw [if_neg h2]
          cases hp : jsParseInt10 s.data with
          | none => decide
          | some num => simp [List.isPrefixOf]
  · rintro (rfl | rfl)
    · rfl
    · decide
  · intro s hx hpre
    subst hx
    show (⟨normalizeChainIdL s.data⟩ : String) = _
    unfold normalizeChainIdL
    by_cases h1 : s.data = []
    · rw [h1] at hpre
      exact absurd hpre (by decide)
    · rw [if_neg h1, if_pos hpre]
  · intro s hx hpre hparse
    subst hx
    show (⟨normalizeChainIdL s.data⟩ : String) = _
    unfold normalizeChainIdL
    by_cases h1 : s.data = []
    · rw [if_pos h1]
    · rw [if_neg h1, if_neg (by rw [hpre]; decide), hparse]
  · intro s num hx hpre hparse
    subst hx
    show (⟨normalizeChainIdL s.data⟩ : String) = _
    unfold normalizeChainIdL
    by_cases h1 : s.data = []
    · rw [h1] at hparse
      have hnone : jsParseInt10 [] = none := by decide
      rw [hnone] at hparse
      exact Option.noConfusion hparse
    · rw [if_neg h1, if_neg (by rw [hpre]; decide), hparse]

/-- C10 witness: normalization at the decimal Sepolia chain id
`"11155111"`, which parses exactly (far below `2^53`) and renders as
`"0xaa36a7"`. -/
theorem normalizeChainId_spec_witness :
    ['0', 'x'].isPrefixOf (normalizeChainId (some "11155111")).data = true
    ∧ normalizeChainId (some "11155111") = "0xaa36a7" := by
  have h := normalizeChainId_spec (some "11155111")
  refine ⟨h.1, ?_⟩
  have h5 := h.2.2.2.2 "11155111" (.finite 11155111) rfl (by decide) (by decide)
  rw [h5]
  decide
